import Mathlib

/-!
Verification of the video-player media-library engine.

The presentation layer (React/TypeScript: the zustand store in
`src/stores/appStore.ts`, the `Sidebar` and `Player` components) is embedded
directly from the source.  The catalog/query/scan backend is invoked through
Tauri commands (`get_videos`, `scan_folder`, `add_mounted_folder`, ...) whose
Rust implementation is not part of the visible sources; those operations are
modelled from the specification (sections 3, 4, 6, 7) and marked as such.
-/

namespace VideoPlayer

/-! ## Data model (from `types.ts` and spec section 3) -/

/-- A catalog Video row, from the `Video` interface in `types.ts`
(`created_at` / `updated_at` timestamps abstracted to naturals). -/
structure Video where
  id : String
  path : String
  filename : String
  folder_path : String
  size : Nat
  duration : Option Nat
  thumbnail_path : Option String
  created_at : Nat
  updated_at : Nat
deriving DecidableEq, Repr

/-- A MountedFolder row, from the `MountedFolder` interface in `types.ts`.
`scan_depth` is an integer: the UI can hand arbitrary integers to the
backend, which is responsible for validation. -/
structure MountedFolder where
  id : String
  path : String
  name : String
  scan_depth : Int
  created_at : Nat
deriving DecidableEq, Repr

/-- Tag vocabulary row (`types.ts`). -/
structure Tag where
  id : String
  name : String
  color : String
deriving DecidableEq, Repr

/-- Participant vocabulary row (`types.ts`). -/
structure Participant where
  id : String
  name : String
deriving DecidableEq, Repr

/-- Language vocabulary row (`types.ts`). -/
structure Language where
  id : String
  code : String
  name : String
deriving DecidableEq, Repr

/-- Modelled from the spec: the persistent catalog store (spec section 3).
Videos, mounted folders, the three vocabularies, the three many-to-many
association relations as lists of `(video_id, entity_id)` pairs, and the
playback-position store keyed by video id (seconds as rationals). -/
structure Catalog where
  videos : List Video
  mounted_folders : List MountedFolder
  tags : List Tag
  participants : List Participant
  languages : List Language
  video_tags : List (String × String)
  video_participants : List (String × String)
  video_languages : List (String × String)
  playback_positions : List (String × Rat)
deriving DecidableEq, Repr

/-- Error kinds, from spec section 7. -/
inductive AppError where
  | NotFound
  | DuplicatePath
  | IOFailure
  | InvalidArgument
deriving DecidableEq, Repr

/-! ## Filters and the query engine -/

/-- Sort key, from the `FilterOptions` interface in `types.ts`. -/
inductive SortBy where
  | filename
  | size
  | created_at
  | updated_at
deriving DecidableEq, Repr

/-- Sort direction, from the `FilterOptions` interface in `types.ts`. -/
inductive SortOrder where
  | asc
  | desc
deriving DecidableEq, Repr

/-- Filter/sort/pagination request, from the `FilterOptions` interface in
`types.ts`. -/
structure FilterOptions where
  folder_path : Option String
  tag_ids : List String
  participant_ids : List String
  language_ids : List String
  search_query : Option String
  sort_by : SortBy
  sort_order : SortOrder
  limit : Nat
  offset : Nat
deriving DecidableEq, Repr

/-- ASCII lower-casing of one character. -/
def lowerChar (c : Char) : Char :=
  if 65 ≤ c.toNat ∧ c.toNat ≤ 90 then Char.ofNat (c.toNat + 32) else c

/-- ASCII lower-casing of a character list. -/
def lowerChars (cs : List Char) : List Char := cs.map lowerChar

/-- Split a character list on a separator (like `String.splitOn` for a
one-character separator). -/
def splitOnChar (sep : Char) : List Char → List (List Char)
  | [] => [[]]
  | ch :: rest =>
    let r := splitOnChar sep rest
    if ch == sep then [] :: r
    else
      match r with
      | [] => [[ch]]
      | g :: gs => (ch :: g) :: gs

/-- Join character-list pieces with a separator (like
`String.intercalate`). -/
def joinWith (sep : Char) : List (List Char) → List Char
  | [] => []
  | [g] => g
  | g :: g' :: gs => g ++ sep :: joinWith sep (g' :: gs)

/-- Character-level substring test: `needle` starts `hay`. -/
def listStartsWith : List Char → List Char → Bool
  | [], _ => true
  | _ :: _, [] => false
  | a :: as, b :: bs => a == b && listStartsWith as bs

/-- Whether `needle` occurs as a contiguous run inside `hay`. -/
def listContainsRun (needle : List Char) : List Char → Bool
  | [] => needle.isEmpty
  | b :: bs => listStartsWith needle (b :: bs) || listContainsRun needle bs

/-- Case-insensitive substring match of `query` against `name`. -/
def caseInsensitiveContains (query name : String) : Bool :=
  listContainsRun (lowerChars query.toList) (lowerChars name.toList)

/-- True when the video has at least one association (in `assocs`) whose
entity id lies in `ids` — the OR-within-a-dimension rule of spec 4.3. -/
def videoHasAssoc (assocs : List (String × String)) (videoId : String)
    (ids : List String) : Bool :=
  ids.any (fun i => assocs.any (fun p => p.1 == videoId && p.2 == i))

/-- Modelled from the spec: the Query Engine's filter semantics (spec 4.3,
backend `get_videos` not under src/).  All dimensions optional, AND across
dimensions, OR within an id-set dimension, case-insensitive substring search
on filename.  `folder_path` is matched exactly (the spec leaves
exact-vs-prefix open; the choice is irrelevant to the claims proved here). -/
def matchesFilter (c : Catalog) (f : FilterOptions) (v : Video) : Bool :=
  (match f.folder_path with
    | none => true
    | some fp => v.folder_path == fp)
  && (f.tag_ids.isEmpty || videoHasAssoc c.video_tags v.id f.tag_ids)
  && (f.participant_ids.isEmpty
      || videoHasAssoc c.video_participants v.id f.participant_ids)
  && (f.language_ids.isEmpty
      || videoHasAssoc c.video_languages v.id f.language_ids)
  && (match f.search_query with
    | none => true
    | some q => caseInsensitiveContains q v.filename)

/-- Ordering on the selected sort key (spec 4.3). -/
def videoKeyOrdering (sb : SortBy) (a b : Video) : Ordering :=
  match sb with
  | .filename => compare a.filename b.filename
  | .size => compare a.size b.size
  | .created_at => compare a.created_at b.created_at
  | .updated_at => compare a.updated_at b.updated_at

/-- Modelled from the spec: total sort predicate — primary key per
`sort_by`/`sort_order`, ties broken by the stable secondary key video id
(spec 4.3). -/
def videoLe (f : FilterOptions) (a b : Video) : Bool :=
  let primary := videoKeyOrdering f.sort_by a b
  let oriented := match f.sort_order with
    | .asc => primary
    | .desc => primary.swap
  match oriented with
  | .lt => true
  | .gt => false
  | .eq => compare a.id b.id != .gt

/-- Insert into a sorted list, keeping it sorted w.r.t. `le`. -/
def insertSorted (le : Video → Video → Bool) (v : Video) :
    List Video → List Video
  | [] => [v]
  | w :: ws => if le v w then v :: w :: ws else w :: insertSorted le v ws

/-- Deterministic (insertion) sort of the matching rows. -/
def sortVideos (le : Video → Video → Bool) : List Video → List Video
  | [] => []
  | v :: vs => insertSorted le v (sortVideos le vs)

/-- The full, unpaginated, sorted result set of a filter. -/
def sortedMatching (c : Catalog) (f : FilterOptions) : List Video :=
  sortVideos (videoLe f) (c.videos.filter (matchesFilter c f))

/-- Query response shape, from the `PaginatedVideos` interface in
`appStore.ts`. -/
structure PaginatedVideos where
  videos : List Video
  total : Nat
  has_more : Bool
deriving DecidableEq, Repr

/-- Modelled from the spec: `get_videos(filter)` (spec 4.3 / 6, backend not
under src/).  Sorts the matching rows, pages by offset/limit,
`has_more = (offset + returned_count) < total`, `total` the count of all
matching rows before pagination. -/
def get_videos (c : Catalog) (f : FilterOptions) : PaginatedVideos :=
  let sorted := sortedMatching c f
  let page := (sorted.drop f.offset).take f.limit
  { videos := page
    total := sorted.length
    has_more := decide (f.offset + page.length < sorted.length) }

/-! ## The zustand store (`appStore.ts`), embedded from the source -/

/-- `const PAGE_SIZE = 100` in `appStore.ts`. -/
def PAGE_SIZE : Nat := 100

/-- The store state fields relevant to video listing, from the `AppState`
interface in `appStore.ts`. -/
structure AppStoreState where
  videos : List Video
  totalVideos : Nat
  hasMore : Bool
  filter : FilterOptions
  isLoading : Bool
deriving DecidableEq, Repr

/-- `loadVideos` from `appStore.ts`: queries at `offset 0, limit PAGE_SIZE`
over the current filter and replaces `videos`, `totalVideos`, `hasMore` and
the stored filter.  (The transient `isLoading: true` around the awaited call
nets out to `false`.) -/
def loadVideos (c : Catalog) (s : AppStoreState) : AppStoreState :=
  let f := { s.filter with offset := 0, limit := PAGE_SIZE }
  let r := get_videos c f
  { s with
    videos := r.videos
    totalVideos := r.total
    hasMore := r.has_more
    filter := f
    isLoading := false }

/-- `loadMoreVideos` from `appStore.ts`: returns immediately when
`!hasMore || isLoading`; otherwise advances the offset by `PAGE_SIZE`,
queries, and appends the returned page.  The second component records the
queries issued to `get_videos` (empty when the guard fires).  `totalVideos`
is deliberately not updated, as in the source. -/
def loadMoreVideos (c : Catalog) (s : AppStoreState) :
    AppStoreState × List FilterOptions :=
  if !s.hasMore || s.isLoading then (s, [])
  else
    let f := { s.filter with offset := s.filter.offset + PAGE_SIZE }
    let r := get_videos c f
    ({ s with
        videos := s.videos ++ r.videos
        hasMore := r.has_more
        filter := f
        isLoading := false }, [f])

/-- Repeatedly trigger `loadMoreVideos` while `hasMore`, as the
`VideoGrid` infinite-scroll observer does; `fuel` bounds the iteration. -/
def loadMoreRepeat (c : Catalog) : Nat → AppStoreState → AppStoreState
  | 0, s => s
  | fuel + 1, s =>
    if s.hasMore then loadMoreRepeat c fuel (loadMoreVideos c s).1 else s

/-- A partial filter as passed to `setFilter` (TypeScript
`Partial<FilterOptions>`): each field optionally present. -/
structure FilterPatch where
  folder_path : Option (Option String)
  tag_ids : Option (List String)
  participant_ids : Option (List String)
  language_ids : Option (List String)
  search_query : Option (Option String)
  sort_by : Option SortBy
  sort_order : Option SortOrder
  limit : Option Nat
  offset : Option Nat
deriving DecidableEq, Repr

/-- The object-spread `{ ...get().filter, ...newFilter, offset: 0 }` in
`setFilter` (`appStore.ts`): fields present in the patch win, and `offset`
is forced to `0` last, overriding even an offset carried by the patch. -/
def setFilterMerged (f : FilterOptions) (p : FilterPatch) : FilterOptions :=
  { folder_path := p.folder_path.getD f.folder_path
    tag_ids := p.tag_ids.getD f.tag_ids
    participant_ids := p.participant_ids.getD f.participant_ids
    language_ids := p.language_ids.getD f.language_ids
    search_query := p.search_query.getD f.search_query
    sort_by := p.sort_by.getD f.sort_by
    sort_order := p.sort_order.getD f.sort_order
    limit := p.limit.getD f.limit
    offset := 0 }

/-- `setFilter` from `appStore.ts`: store the merged filter, then reload
(`loadVideos`). -/
def setFilter (c : Catalog) (s : AppStoreState) (p : FilterPatch) :
    AppStoreState :=
  loadVideos c { s with filter := setFilterMerged s.filter p }

/-! ## Mounted-folder operations (spec-modelled backend) -/

/-- Components of a `/`-separated path. -/
def pathComponents (p : String) : List String :=
  (splitOnChar '/' p.toList).map String.mk

/-- Last path component (the entry's own name). -/
def lastComponent (p : String) : String := (pathComponents p).getLastD p

/-- Directory part of a path. -/
def parentDir (p : String) : String :=
  String.mk (joinWith '/' (splitOnChar '/' p.toList).dropLast)

/-- Whether `path` is already mounted. -/
def isMounted (c : Catalog) (path : String) : Bool :=
  decide (∃ m ∈ c.mounted_folders, m.path = path)

/-- Modelled from the spec: `add_mounted_folder(path, scan_depth)`
(spec 4.2 / 6 / 7; Rust backend not under src/).  Fails with
`InvalidArgument` when `scan_depth < 1`, with `DuplicatePath` when the path
is already mounted; otherwise inserts and returns the new row. -/
def add_mounted_folder (c : Catalog) (now : Nat) (path : String)
    (depth : Int) : Except AppError (Catalog × MountedFolder) :=
  if depth < 1 then .error .InvalidArgument
  else if isMounted c path then .error .DuplicatePath
  else
    let m : MountedFolder :=
      { id := path
        path := path
        name := lastComponent path
        scan_depth := depth
        created_at := now }
    .ok ({ c with mounted_folders := c.mounted_folders ++ [m] }, m)

/-- The store's `addMountedFolder` (`appStore.ts`) has signature
`async (path, scanDepth = 2)`: calling it without an explicit depth invokes
the backend command with `scanDepth = 2`. -/
def addMountedFolderNoDepth (c : Catalog) (now : Nat) (path : String) :
    Except AppError (Catalog × MountedFolder) :=
  add_mounted_folder c now path 2

/-- Modelled from the spec: `update_folder_scan_depth(path, depth)`
(spec 6 / 7; Rust backend not under src/).  `InvalidArgument` when
`depth < 1`, `NotFound` when the path is not mounted, otherwise updates the
row's `scan_depth`. -/
def update_folder_scan_depth (c : Catalog) (path : String) (depth : Int) :
    Except AppError Catalog :=
  if depth < 1 then .error .InvalidArgument
  else if isMounted c path then
    .ok { c with
          mounted_folders := c.mounted_folders.map fun m =>
            if m.path = path then { m with scan_depth := depth } else m }
  else .error .NotFound

/-- Modelled from the spec: `remove_mounted_folder(path)` (spec 4.2:
"removes the MountedFolder row only; does not touch Videos").  `NotFound`
when the path is not mounted. -/
def remove_mounted_folder (c : Catalog) (path : String) :
    Except AppError Catalog :=
  if isMounted c path then
    .ok { c with
          mounted_folders := c.mounted_folders.filter fun m =>
            decide (m.path ≠ path) }
  else .error .NotFound

/-- The Sidebar scan-depth input handler
`onChange={(e) => setTempScanDepth(parseInt(e.target.value) || 1)}`
(`Sidebar.tsx`): `parsed = none` models a NaN `parseInt` result, and the
JavaScript `|| 1` turns both NaN and `0` into `1`; any other integer
(including negatives typed into the field) passes through. -/
def scanDepthInputValue (parsed : Option Int) : Int :=
  match parsed with
  | none => 1
  | some n => if n = 0 then 1 else n

/-! ## Filesystem scanner (spec-modelled backend) -/

/-- A regular file in the modelled filesystem tree. -/
structure FsFile where
  name : String
  size : Nat
deriving DecidableEq, Repr

/-- A directory in the modelled filesystem tree. -/
inductive FsDir where
  | mk (name : String) (files : List FsFile) (subdirs : List FsDir)

/-- Directory name. -/
def FsDir.name : FsDir → String
  | .mk n _ _ => n

/-- Regular files directly inside the directory. -/
def FsDir.files : FsDir → List FsFile
  | .mk _ f _ => f

/-- Immediate subdirectories. -/
def FsDir.subdirs : FsDir → List FsDir
  | .mk _ _ s => s

/-- Lower-cased extension of a file name (text after the last dot). -/
def fileExtension (name : String) : String :=
  String.mk (lowerChars ((splitOnChar '.' name.toList).getLastD name.toList))

/-- File name minus its extension (the sidecar basename of spec 4.5). -/
def baseName (name : String) : String :=
  let parts := splitOnChar '.' name.toList
  if parts.length ≤ 1 then name else String.mk (joinWith '.' parts.dropLast)

/-- Modelled from the spec: known video extensions the scanner classifies
by (the exact set lives in the Rust backend, not under src/; the README
names mkv/avi/mp4/webm among others). -/
def videoExtensions : List String :=
  ["mp4", "mkv", "avi", "webm", "m4v", "mov", "wmv", "flv"]

/-- Thumbnail sidecar extensions, priority-ordered (README: jpg, jpeg,
png, webp). -/
def thumbnailExtensions : List String := ["jpg", "jpeg", "png", "webp"]

/-- Subtitle sidecar extensions, priority-ordered (README: srt, ass, ssa,
sub, vtt). -/
def subtitleExtensions : List String := ["srt", "ass", "ssa", "sub", "vtt"]

/-- Modelled from the spec: the Sidecar Resolver core (spec 4.5).  Given
the sibling file names of a video, finds the first `basename.ext` present,
trying extensions in priority order. -/
def findSidecar (siblings : List String) (videoName : String)
    (exts : List String) : Option String :=
  let base := baseName videoName
  exts.findSome? fun ext =>
    siblings.find? fun s => s == base ++ "." ++ ext

/-- Modelled from the spec: `find_subtitle_for_video(path)` (spec 4.5 / 6;
Rust backend not under src/).  `dirListing` gives the file names present in
a directory. -/
def find_subtitle_for_video (dirListing : String → List String)
    (videoPath : String) : Option String :=
  let dir := parentDir videoPath
  (findSidecar (dirListing dir) (lastComponent videoPath)
      subtitleExtensions).map fun s => dir ++ "/" ++ s

/-- A video file discovered by the walk, with the sidecar thumbnail
resolved among its directory siblings. -/
structure DiscoveredVideo where
  path : String
  filename : String
  folder_path : String
  size : Nat
  thumbnail : Option String
deriving DecidableEq, Repr

/-- Modelled from the spec: the depth-bounded walk (spec 4.1).  Depth 1
visits only the directory's immediate contents; each extra level adds one
layer of subdirectories.  Files are classified by extension against
`exts`. -/
def collectVideos (exts : List String) : Nat → String → FsDir →
    List DiscoveredVideo
  | 0, _, _ => []
  | depth + 1, dirPath, d =>
    let own := (d.files.filter fun f =>
        exts.contains (fileExtension f.name)).map fun f =>
      { path := dirPath ++ "/" ++ f.name
        filename := f.name
        folder_path := dirPath
        size := f.size
        thumbnail := (findSidecar (d.files.map (·.name)) f.name
            thumbnailExtensions).map fun s => dirPath ++ "/" ++ s }
    own ++ (d.subdirs.map fun sub =>
      collectVideos exts depth (dirPath ++ "/" ++ sub.name) sub).flatten

/-- Derived folder-tree node (`FolderNode` in `types.ts`). -/
inductive FolderNode where
  | mk (path : String) (name : String) (children : List FolderNode)
      (video_count : Nat)

/-- Recursive video count of a node. -/
def FolderNode.video_count : FolderNode → Nat
  | .mk _ _ _ k => k

/-- Modelled from the spec: the FolderNode tree built by a scan (spec 4.1):
every directory visited within the depth bound becomes a node, directories
beyond the bound are excluded, and `video_count` is own-level matches plus
the children's counts, computed bottom-up. -/
def buildFolderTree (exts : List String) : Nat → String → FsDir →
    Option FolderNode
  | 0, _, _ => none
  | depth + 1, dirPath, d =>
    let children := d.subdirs.filterMap fun sub =>
      buildFolderTree exts depth (dirPath ++ "/" ++ sub.name) sub
    let own := (d.files.filter fun f =>
      exts.contains (fileExtension f.name)).length
    some (.mk dirPath d.name children
      (own + (children.map FolderNode.video_count).sum))

/-- Scan summary (`ScanResult` in `types.ts`). -/
structure ScanResult where
  total_videos : Nat
  new_videos : Nat
  folders : List FolderNode

/-- Whether some Video row already has this path (catalog-wide unique
key, spec section 3). -/
def catalogHasPath (c : Catalog) (path : String) : Bool :=
  decide (∃ v ∈ c.videos, v.path = path)

/-- The Video row inserted for a newly discovered file: size from the
filesystem, duration unset, thumbnail from the Sidecar Resolver
(spec 4.1). -/
def newVideoRow (d : DiscoveredVideo) (now : Nat) : Video :=
  { id := d.path
    path := d.path
    filename := d.filename
    folder_path := d.folder_path
    size := d.size
    duration := none
    thumbnail_path := d.thumbnail
    created_at := now
    updated_at := now }

/-- Modelled from the spec: reconciliation of one discovered file
(spec 4.1): a path already present performs no mutation; a new path inserts
a fresh Video row. -/
def insertDiscovered (now : Nat) (c : Catalog) (d : DiscoveredVideo) :
    Catalog :=
  if catalogHasPath c d.path then c
  else { c with videos := c.videos ++ [newVideoRow d now] }

/-- Reconcile every discovered file, in discovery order. -/
def reconcileVideos (now : Nat) (c : Catalog) :
    List DiscoveredVideo → Catalog
  | [] => c
  | d :: ds => reconcileVideos now (insertDiscovered now c d) ds

/-- Modelled from the spec: `scan_folder(path) -> ScanResult` (spec 4.1 / 6;
Rust backend not under src/).  The path must already be mounted
(`NotFound` otherwise), the depth comes from the MountedFolder row, the
walk discovers video files, reconciliation inserts only unseen paths, and
`new_videos` counts the inserted rows. -/
def scan_folder (exts : List String) (now : Nat) (fs : FsDir)
    (c : Catalog) (path : String) :
    Except AppError (Catalog × ScanResult) :=
  match c.mounted_folders.find? (fun m => m.path == path) with
  | none => .error .NotFound
  | some m =>
    let discovered := collectVideos exts m.scan_depth.toNat path fs
    let c' := reconcileVideos now c discovered
    .ok (c',
      { total_videos := discovered.length
        new_videos := c'.videos.length - c.videos.length
        folders := (buildFolderTree exts m.scan_depth.toNat path fs).toList })

/-! ## Scan concurrency (spec-modelled backend lock) -/

/-- Modelled from the spec: the per-MountedFolder scan-lock state
(spec 4.1 / 5 / 9: "a keyed mutual-exclusion mechanism ... per MountedFolder
path"); the lock lives in the backend, not under src/.  `inFlight` lists the
paths whose scans are currently running. -/
structure ScanLockState where
  inFlight : List String
deriving DecidableEq, Repr

/-- Modelled from the spec: requesting a scan for `p` — rejected (state
unchanged, `false`) when a scan for `p` is already in flight, started
otherwise. -/
def requestScan (s : ScanLockState) (p : String) : ScanLockState × Bool :=
  if p ∈ s.inFlight then (s, false)
  else ({ inFlight := p :: s.inFlight }, true)

/-- A scan for `p` completing releases its lock. -/
def finishScan (s : ScanLockState) (p : String) : ScanLockState :=
  { inFlight := s.inFlight.erase p }

/-- Scheduler events: a scan request or a scan completion. -/
inductive ScanEvent where
  | request (p : String)
  | finish (p : String)

/-- One scheduler step. -/
def scanStep (s : ScanLockState) : ScanEvent → ScanLockState
  | .request p => (requestScan s p).1
  | .finish p => finishScan s p

/-- The scheduler state after a sequence of events, from the idle state. -/
def scanRun (es : List ScanEvent) : ScanLockState :=
  es.foldl scanStep { inFlight := [] }

/-! ## Player integration, embedded from the source -/

/-- The arguments the store passes to the `play_video_mpv` command. -/
structure MpvInvocation where
  videoPath : String
  subtitlePath : Option String
  startPosition : Option Rat
deriving DecidableEq, Repr

/-- `playWithMpv` from `appStore.ts`: reads the playback position for
`video.id` and the sidecar subtitle for `video.path`, then invokes
`play_video_mpv` with exactly the video path, that subtitle path and that
start position.  The two backend reads are passed as functions. -/
def playWithMpv (getPosition : String → Option Rat)
    (findSubtitle : String → Option String) (video : Video) :
    MpvInvocation :=
  let position := getPosition video.id
  let subtitlePath := findSubtitle video.path
  { videoPath := video.path
    subtitlePath := subtitlePath
    startPosition := position }

/-- Modelled from the spec: `get_playback_position(video_id)` (spec 4.4 / 6;
Rust backend not under src/) — lookup in the playback-position store. -/
def get_playback_position (c : Catalog) (videoId : String) : Option Rat :=
  (c.playback_positions.find? (fun p => p.1 == videoId)).map Prod.snd

/-- The built-in `Player`'s position-restore effect (`Player.tsx`):
`if (position && videoRef.current) videoRef.current.currentTime = position`.
A JavaScript number is falsy exactly when it is `0` (or NaN), so a missing
position and a stored `0` both leave `currentTime` untouched. -/
def applyLoadedPosition (position : Option Rat) (currentTime : Rat) : Rat :=
  match position with
  | none => currentTime
  | some p => if p = 0 then currentTime else p

/-- The built-in `Player`'s periodic save tick (`Player.tsx`): every
interval it saves `currentTime` only when `currentTime > 0`; returns the
position saved by one tick, if any. -/
def savePositionTick (currentTime : Rat) : Option Rat :=
  if 0 < currentTime then some currentTime else none

/-! ## Pagination invariant -/

/-- The store state after loading the page at offset `o` of the fixed
filter `g`: the stored filter is `g` at offset `o`, the accumulated list is
the sorted result up to `o + PAGE_SIZE`, and `hasMore` is the backend's
has-more answer for that page. -/
def PagedInv (c : Catalog) (g : FilterOptions) (o : Nat)
    (s : AppStoreState) : Prop :=
  s.filter = { g with offset := o }
  ∧ s.videos = (sortedMatching c g).take (o + PAGE_SIZE)
  ∧ s.hasMore = decide
      (o + (((sortedMatching c g).drop o).take PAGE_SIZE).length
        < (sortedMatching c g).length)
  ∧ s.isLoading = false

/-! ## Concrete demonstration data -/

/-- The store's `defaultFilter` from `appStore.ts`. -/
def defaultFilter : FilterOptions :=
  { folder_path := none
    tag_ids := []
    participant_ids := []
    language_ids := []
    search_query := none
    sort_by := .filename
    sort_order := .asc
    limit := PAGE_SIZE
    offset := 0 }

/-- An empty catalog. -/
def emptyCatalog : Catalog :=
  { videos := []
    mounted_folders := []
    tags := []
    participants := []
    languages := []
    video_tags := []
    video_participants := []
    video_languages := []
    playback_positions := [] }

/-- The spec's example tree (spec section 8): `/media/a.mp4`,
`/media/sub/b.mkv`, `/media/sub/deep/c.mkv`. -/
def demoFs : FsDir :=
  .mk "media" [{ name := "a.mp4", size := 10 }]
    [.mk "sub" [{ name := "b.mkv", size := 20 }]
      [.mk "deep" [{ name := "c.mkv", size := 30 }] []]]

/-- The mounted `/media` folder with scan depth 2. -/
def demoFolder : MountedFolder :=
  { id := "/media"
    path := "/media"
    name := "media"
    scan_depth := 2
    created_at := 0 }

/-- A catalog with `/media` mounted and no videos yet. -/
def demoMounted : Catalog :=
  { emptyCatalog with mounted_folders := [demoFolder] }

/-- What a depth-2 walk of the example tree discovers. -/
def demoDiscovered : List DiscoveredVideo :=
  collectVideos videoExtensions 2 "/media" demoFs

/-- The catalog after the first scan of `/media`. -/
def demoScanned : Catalog := reconcileVideos 5 demoMounted demoDiscovered

/-- `demoMounted` after updating the scan depth of `/media` to 5. -/
def demoUpdated : Catalog :=
  { demoMounted with mounted_folders := [{ demoFolder with scan_depth := 5 }] }

/-- `demoScanned` after unmounting `/media`. -/
def demoRemoved : Catalog := { demoScanned with mounted_folders := [] }

/-- The mounted-folder row created for `/media` at time 3 with the default
depth. -/
def demoAddedFolder : MountedFolder :=
  { id := "/media"
    path := "/media"
    name := "media"
    scan_depth := 2
    created_at := 3 }

/-- The catalog after adding `/media` (default depth) to an empty catalog. -/
def demoAdded : Catalog :=
  { emptyCatalog with mounted_folders := [demoAddedFolder] }

/-- A quiescent store state with no further pages. -/
def demoIdleState : AppStoreState :=
  { videos := []
    totalVideos := 0
    hasMore := false
    filter := defaultFilter
    isLoading := false }

/-! ## Theorems -/

/-- C6: launching a video with the external player (`playWithMpv`) reads
the Playback Position Store via `get_playback_position(video.id)` and the
Sidecar Resolver via `find_subtitle_for_video(video.path)`, and passes
exactly these two results to `play_video_mpv` as the start position and
subtitle path (together with the video's own path). -/
theorem playWithMpv_passes_position_and_subtitle (c : Catalog)
    (dirListing : String → List String) (v : Video) :
    playWithMpv (get_playback_position c) (find_subtitle_for_video dirListing) v
      = { videoPath := v.path
          subtitlePath := find_subtitle_for_video dirListing v.path
          startPosition := get_playback_position c v.id } := rfl

/-- C8: every `setFilter` call merges the partial filter into the current
one field by field, forces the offset to 0 (even when the patch carries an
offset), and reloads, so the video list is the first page of the new filter;
a previous filter's pagination offset is never carried over. -/
theorem setFilter_resets_offset (c : Catalog) (s : AppStoreState)
    (p : FilterPatch) :
    (setFilter c s p).filter.offset = 0
    ∧ (setFilter c s p).filter.limit = PAGE_SIZE
    ∧ (setFilter c s p).filter.folder_path
        = p.folder_path.getD s.filter.folder_path
    ∧ (setFilter c s p).filter.tag_ids = p.tag_ids.getD s.filter.tag_ids
    ∧ (setFilter c s p).filter.participant_ids
        = p.participant_ids.getD s.filter.participant_ids
    ∧ (setFilter c s p).filter.language_ids
        = p.language_ids.getD s.filter.language_ids
    ∧ (setFilter c s p).filter.search_query
        = p.search_query.getD s.filter.search_query
    ∧ (setFilter c s p).filter.sort_by = p.sort_by.getD s.filter.sort_by
    ∧ (setFilter c s p).filter.sort_order
        = p.sort_order.getD s.filter.sort_order
    ∧ (setFilter c s p).videos
        = (get_videos c ((setFilter c s p).filter)).videos :=
  ⟨rfl, rfl, rfl, rfl, rfl, rfl, rfl, rfl, rfl, rfl⟩

/-- C9: when `hasMore` is false or a load is in progress, `loadMoreVideos`
returns at once — the whole store state is unchanged and no `get_videos`
query is issued. -/
theorem loadMoreVideos_guard (c : Catalog) (s : AppStoreState)
    (h : s.hasMore = false ∨ s.isLoading = true) :
    loadMoreVideos c s = (s, []) := by
  unfold loadMoreVideos
  rcases h with h | h <;> simp [h]

/-- Witness for `loadMoreVideos_guard` at a concrete idle state. -/
theorem loadMoreVideos_guard_witness :
    loadMoreVideos demoScanned demoIdleState = (demoIdleState, []) :=
  loadMoreVideos_guard demoScanned demoIdleState (Or.inl rfl)

/-- C10: the built-in player applies a saved playback position only when it
is non-null and nonzero — a stored position of exactly 0 behaves like no
stored position, so no seek happens — and the periodic save fires only
while the current time is strictly positive. -/
theorem player_position_semantics :
    (∀ t : Rat, applyLoadedPosition none t = t)
    ∧ (∀ t : Rat, applyLoadedPosition (some 0) t = applyLoadedPosition none t)
    ∧ (∀ t p : Rat, p ≠ 0 → applyLoadedPosition (some p) t = p)
    ∧ (∀ t : Rat, 0 < t → savePositionTick t = some t)
    ∧ (∀ t : Rat, ¬ 0 < t → savePositionTick t = none) := by
  refine ⟨fun t => rfl, fun t => by simp [applyLoadedPosition], ?_, ?_, ?_⟩
  · intro t p hp
    simp [applyLoadedPosition, hp]
  · intro t ht
    simp [savePositionTick, ht]
  · intro t ht
    simp [savePositionTick, ht]

/-- Witness for `player_position_semantics` at concrete positions. -/
theorem player_position_semantics_witness :
    applyLoadedPosition (some 3) 1 = 3
    ∧ savePositionTick 2 = some 2
    ∧ savePositionTick 0 = none :=
  ⟨player_position_semantics.2.2.1 1 3 (by norm_num),
   player_position_semantics.2.2.2.1 2 (by norm_num),
   player_position_semantics.2.2.2.2 0 (by norm_num)⟩

/-- C4: `remove_mounted_folder(path)` removes only the MountedFolder row:
the videos, the three vocabularies, all three association relations and the
playback positions are untouched, and the remaining folder rows are exactly
those with a different path. -/
theorem remove_mounted_folder_frame (c : Catalog) (path : String)
    (c' : Catalog) (h : remove_mounted_folder c path = .ok c') :
    c'.videos = c.videos
    ∧ c'.tags = c.tags
    ∧ c'.participants = c.participants
    ∧ c'.languages = c.languages
    ∧ c'.video_tags = c.video_tags
    ∧ c'.video_participants = c.video_participants
    ∧ c'.video_languages = c.video_languages
    ∧ c'.playback_positions = c.playback_positions
    ∧ c'.mounted_folders
        = c.mounted_folders.filter (fun m => decide (m.path ≠ path)) := by
  unfold remove_mounted_folder at h
  split at h
  · cases h
    exact ⟨rfl, rfl, rfl, rfl, rfl, rfl, rfl, rfl, rfl⟩
  · cases h

/-- Witness for `remove_mounted_folder_frame`: unmounting `/media` from the
scanned demo catalog keeps every non-folder table. -/
theorem remove_mounted_folder_frame_witness :
    demoRemoved.videos = demoScanned.videos
    ∧ demoRemoved.tags = demoScanned.tags
    ∧ demoRemoved.participants = demoScanned.participants
    ∧ demoRemoved.languages = demoScanned.languages
    ∧ demoRemoved.video_tags = demoScanned.video_tags
    ∧ demoRemoved.video_participants = demoScanned.video_participants
    ∧ demoRemoved.video_languages = demoScanned.video_languages
    ∧ demoRemoved.playback_positions = demoScanned.playback_positions
    ∧ demoRemoved.mounted_folders
        = demoScanned.mounted_folders.filter
            (fun m => decide (m.path ≠ "/media")) :=
  remove_mounted_folder_frame demoScanned "/media" demoRemoved (by rfl)

/-- C5: calling the store's `addMountedFolder` without an explicit scan
depth registers the folder with `scan_depth = 2`. -/
theorem add_mounted_folder_default_depth (c : Catalog) (now : Nat)
    (path : String) (c' : Catalog) (m : MountedFolder)
    (h : addMountedFolderNoDepth c now path = .ok (c', m)) :
    m.scan_depth = 2 ∧ m ∈ c'.mounted_folders := by
  unfold addMountedFolderNoDepth add_mounted_folder at h
  rw [if_neg (by norm_num)] at h
  split at h
  · cases h
  · cases h
    exact ⟨rfl, by simp⟩

/-- Witness for `add_mounted_folder_default_depth`: adding `/media` to the
empty catalog with no explicit depth. -/
theorem add_mounted_folder_default_depth_witness :
    demoAddedFolder.scan_depth = 2
    ∧ demoAddedFolder ∈ demoAdded.mounted_folders :=
  add_mounted_folder_default_depth emptyCatalog 3 "/media" demoAdded
    demoAddedFolder (by rfl)

/-- C3: every attempt to set a `scan_depth` below 1 — through
`add_mounted_folder` or `update_folder_scan_depth`, including depths
produced by the Sidebar's scan-depth input handler — fails with
`InvalidArgument`, and both operations preserve the invariant that every
stored `scan_depth` is at least 1. -/
theorem scan_depth_validated :
    (∀ (c : Catalog) (path : String) (depth : Int), depth < 1 →
      update_folder_scan_depth c path depth = .error .InvalidArgument)
    ∧ (∀ (c : Catalog) (now : Nat) (path : String) (depth : Int),
        depth < 1 →
        add_mounted_folder c now path depth = .error .InvalidArgument)
    ∧ (∀ (parsed : Option Int) (c : Catalog) (path : String),
        scanDepthInputValue parsed < 1 →
        update_folder_scan_depth c path (scanDepthInputValue parsed)
          = .error .InvalidArgument)
    ∧ (∀ (c : Catalog) (path : String) (depth : Int) (c' : Catalog),
        (∀ m ∈ c.mounted_folders, 1 ≤ m.scan_depth) →
        update_folder_scan_depth c path depth = .ok c' →
        ∀ m ∈ c'.mounted_folders, 1 ≤ m.scan_depth)
    ∧ (∀ (c : Catalog) (now : Nat) (path : String) (depth : Int)
        (c' : Catalog) (mf : MountedFolder),
        (∀ m ∈ c.mounted_folders, 1 ≤ m.scan_depth) →
        add_mounted_folder c now path depth = .ok (c', mf) →
        ∀ m ∈ c'.mounted_folders, 1 ≤ m.scan_depth) := by
  have hupd : ∀ (c : Catalog) (path : String) (depth : Int), depth < 1 →
      update_folder_scan_depth c path depth = .error .InvalidArgument := by
    intro c path depth hd
    unfold update_folder_scan_depth
    rw [if_pos hd]
  refine ⟨hupd, ?_, ?_, ?_, ?_⟩
  · intro c now path depth hd
    unfold add_mounted_folder
    rw [if_pos hd]
  · intro parsed c path hd
    exact hupd c path _ hd
  · intro c path depth c' hinv h m hm
    unfold update_folder_scan_depth at h
    split at h
    · cases h
    · split at h
      · cases h
        simp only [List.mem_map] at hm
        obtain ⟨m0, hm0, hmap⟩ := hm
        by_cases hp : m0.path = path
        · rw [if_pos hp] at hmap
          subst hmap
          show (1 : Int) ≤ depth
          omega
        · rw [if_neg hp] at hmap
          subst hmap
          exact hinv m0 hm0
      · cases h
  · intro c now path depth c' mf hinv h m hm
    unfold add_mounted_folder at h
    split at h
    · cases h
    · split at h
      · cases h
      · cases h
        rcases List.mem_append.mp hm with hm | hm
        · exact hinv m hm
        · simp only [List.mem_singleton] at hm
          subst hm
          show (1 : Int) ≤ depth
          omega

/-- Witness for `scan_depth_validated` at concrete inputs: depth 0 and a
handler-produced negative depth are rejected; updating `/media` to depth 5
and adding `/media` at the default depth keep all stored depths at least
1. -/
theorem scan_depth_validated_witness :
    update_folder_scan_depth demoMounted "/media" 0 = .error .InvalidArgument
    ∧ add_mounted_folder demoMounted 4 "/films" 0 = .error .InvalidArgument
    ∧ update_folder_scan_depth demoMounted "/media"
        (scanDepthInputValue (some (-3))) = .error .InvalidArgument
    ∧ (∀ m ∈ demoUpdated.mounted_folders, 1 ≤ m.scan_depth)
    ∧ (∀ m ∈ demoAdded.mounted_folders, 1 ≤ m.scan_depth) :=
  ⟨scan_depth_validated.1 demoMounted "/media" 0 (by decide),
   scan_depth_validated.2.1 demoMounted 4 "/films" 0 (by decide),
   scan_depth_validated.2.2.1 (some (-3)) demoMounted "/media" (by decide),
   scan_depth_validated.2.2.2.1 demoMounted "/media" 5 demoUpdated
     (by decide) (by rfl),
   scan_depth_validated.2.2.2.2 emptyCatalog 3 "/media" 2 demoAdded
     demoAddedFolder (by decide) (by rfl)⟩

/-- C7: from the idle scheduler, after any sequence of scan requests and
completions the set of in-flight scan paths has no duplicates — at most one
in-flight scan per MountedFolder path; a request for a path already in
flight is rejected with the state unchanged, while a request for a path not
in flight starts alongside whatever other paths are scanning. -/
theorem scan_lock_exclusive :
    (∀ es : List ScanEvent, (scanRun es).inFlight.Nodup)
    ∧ (∀ (s : ScanLockState) (p : String), p ∈ s.inFlight →
        requestScan s p = (s, false))
    ∧ (∀ (s : ScanLockState) (q : String), q ∉ s.inFlight →
        (requestScan s q).2 = true
        ∧ (requestScan s q).1.inFlight = q :: s.inFlight) := by
  refine ⟨?_, ?_, ?_⟩
  · have hstep : ∀ (es : List ScanEvent) (s : ScanLockState),
        s.inFlight.Nodup → (es.foldl scanStep s).inFlight.Nodup := by
      intro es
      induction es with
      | nil => intro s hs; exact hs
      | cons e es ih =>
        intro s hs
        refine ih _ ?_
        cases e with
        | request p =>
          simp only [scanStep, requestScan]
          split
          · exact hs
          · exact List.Nodup.cons (by assumption) hs
        | finish p =>
          exact hs.erase p
    intro es
    exact hstep es _ List.nodup_nil
  · intro s p hp
    unfold requestScan
    rw [if_pos hp]
  · intro s q hq
    unfold requestScan
    rw [if_neg hq]
    exact ⟨rfl, rfl⟩

/-- Witness for `scan_lock_exclusive` at concrete schedules: a repeated
request for `/a` is rejected while `/a` scans, and `/b` starts alongside
`/a`. -/
theorem scan_lock_exclusive_witness :
    (scanRun [.request "/a", .request "/b", .request "/a"]).inFlight.Nodup
    ∧ requestScan ⟨["/a"]⟩ "/a" = (⟨["/a"]⟩, false)
    ∧ (requestScan ⟨["/a"]⟩ "/b").2 = true
    ∧ (requestScan ⟨["/a"]⟩ "/b").1.inFlight = "/b" :: ["/a"] :=
  ⟨scan_lock_exclusive.1 [.request "/a", .request "/b", .request "/a"],
   scan_lock_exclusive.2.1 ⟨["/a"]⟩ "/a" (by decide),
   (scan_lock_exclusive.2.2 ⟨["/a"]⟩ "/b" (by decide)).1,
   (scan_lock_exclusive.2.2 ⟨["/a"]⟩ "/b" (by decide)).2⟩

/-! ## Scanner idempotence (C2) -/

/-- Reconciling one file never removes a path from the catalog. -/
theorem catalogHasPath_insertDiscovered (now : Nat) (c : Catalog)
    (d : DiscoveredVideo) (p : String) (h : catalogHasPath c p = true) :
    catalogHasPath (insertDiscovered now c d) p = true := by
  unfold insertDiscovered
  split
  · exact h
  · unfold catalogHasPath at h ⊢
    simp only [decide_eq_true_eq] at h ⊢
    obtain ⟨v, hv, hp⟩ := h
    exact ⟨v, by simp [hv], hp⟩

/-- After reconciling one discovered file, its path is in the catalog. -/
theorem insertDiscovered_adds (now : Nat) (c : Catalog)
    (d : DiscoveredVideo) :
    catalogHasPath (insertDiscovered now c d) d.path = true := by
  unfold insertDiscovered
  split
  · assumption
  · unfold catalogHasPath
    simp only [decide_eq_true_eq]
    exact ⟨newVideoRow d now, by simp, rfl⟩

/-- Reconciliation never removes a path from the catalog. -/
theorem reconcile_preserves_path (now : Nat)
    (ds : List DiscoveredVideo) : ∀ (c : Catalog) (p : String),
    catalogHasPath c p = true →
    catalogHasPath (reconcileVideos now c ds) p = true := by
  induction ds with
  | nil => intro c p h; exact h
  | cons d ds ih =>
    intro c p h
    exact ih _ p (catalogHasPath_insertDiscovered now c d p h)

/-- After reconciliation, every discovered path is in the catalog. -/
theorem reconcile_adds (now : Nat) (ds : List DiscoveredVideo) :
    ∀ (c : Catalog) (d : DiscoveredVideo), d ∈ ds →
    catalogHasPath (reconcileVideos now c ds) d.path = true := by
  induction ds with
  | nil => intro c d hd; cases hd
  | cons d0 ds ih =>
    intro c d hd
    rcases List.mem_cons.mp hd with hd | hd
    · subst hd
      exact reconcile_preserves_path now ds _ d.path
        (insertDiscovered_adds now c d)
    · exact ih _ d hd

/-- Reconciliation of files whose paths are all already present performs no
mutation at all. -/
theorem reconcile_noop (now : Nat) (ds : List DiscoveredVideo) :
    ∀ c : Catalog, (∀ d ∈ ds, catalogHasPath c d.path = true) →
    reconcileVideos now c ds = c := by
  induction ds with
  | nil => intro c _; rfl
  | cons d ds ih =>
    intro c h
    have hd : insertDiscovered now c d = c := by
      unfold insertDiscovered
      rw [if_pos (h d (List.mem_cons_self d ds))]
    show reconcileVideos now (insertDiscovered now c d) ds = c
    rw [hd]
    exact ih c (fun d' hd' => h d' (List.mem_cons_of_mem d hd'))

/-- Reconciliation touches only the `videos` table: the mounted folders are
unchanged. -/
theorem reconcile_mounted_folders (now : Nat) (ds : List DiscoveredVideo) :
    ∀ c : Catalog,
    (reconcileVideos now c ds).mounted_folders = c.mounted_folders := by
  induction ds with
  | nil => intro c; rfl
  | cons d ds ih =>
    intro c
    show (reconcileVideos now (insertDiscovered now c d) ds).mounted_folders
      = c.mounted_folders
    rw [ih]
    unfold insertDiscovered
    split <;> rfl

/-- C2: scanning the same unchanged tree twice yields `new_videos = 0` on
the second scan and leaves the whole catalog — Video rows, metadata and
associations — exactly as the first scan left it; the summary differs only
in the zero `new_videos` count. -/
theorem scan_idempotent (exts : List String) (now1 now2 : Nat) (fs : FsDir)
    (c c1 : Catalog) (path : String) (r1 : ScanResult)
    (h1 : scan_folder exts now1 fs c path = .ok (c1, r1)) :
    scan_folder exts now2 fs c1 path
      = .ok (c1, { total_videos := r1.total_videos
                   new_videos := 0
                   folders := r1.folders }) := by
  unfold scan_folder at h1 ⊢
  cases hfind : c.mounted_folders.find? (fun m => m.path == path) with
  | none => rw [hfind] at h1; cases h1
  | some m =>
    rw [hfind] at h1
    simp only [Except.ok.injEq, Prod.mk.injEq] at h1
    obtain ⟨hc1, hr1⟩ := h1
    have hmf : c1.mounted_folders = c.mounted_folders := by
      rw [← hc1]
      exact reconcile_mounted_folders now1 _ c
    rw [hmf, hfind]
    have hall : ∀ d ∈ collectVideos exts m.scan_depth.toNat path fs,
        catalogHasPath c1 d.path = true := by
      intro d hd
      rw [← hc1]
      exact reconcile_adds now1 _ c d hd
    have hrec : reconcileVideos now2 c1
        (collectVideos exts m.scan_depth.toNat path fs) = c1 :=
      reconcile_noop now2 _ c1 hall
    show (Except.ok
        (reconcileVideos now2 c1 (collectVideos exts m.scan_depth.toNat path fs),
          ({ total_videos := (collectVideos exts m.scan_depth.toNat path fs).length
             new_videos := (reconcileVideos now2 c1
                 (collectVideos exts m.scan_depth.toNat path fs)).videos.length
               - c1.videos.length
             folders := (buildFolderTree exts m.scan_depth.toNat path fs).toList }
            : ScanResult)) : Except AppError (Catalog × ScanResult))
      = Except.ok (c1, { total_videos := r1.total_videos
                         new_videos := 0
                         folders := r1.folders })
    rw [hrec, ← hr1]
    simp [Nat.sub_self]

/-- Witness for `scan_idempotent`: rescanning the spec's example tree after
the first scan inserted `/media/a.mp4` and `/media/sub/b.mkv`. -/
theorem scan_idempotent_witness :
    scan_folder videoExtensions 9 demoFs demoScanned "/media"
      = .ok (demoScanned,
          { total_videos := demoDiscovered.length
            new_videos := 0
            folders := (buildFolderTree videoExtensions 2 "/media"
                demoFs).toList }) :=
  scan_idempotent videoExtensions 5 9 demoFs demoMounted demoScanned "/media"
    { total_videos := demoDiscovered.length
      new_videos := demoScanned.videos.length - demoMounted.videos.length
      folders := (buildFolderTree videoExtensions 2 "/media" demoFs).toList }
    (by rfl)


/-! ## Pagination stability (C1) -/

/-- Inserting into a list grows its length by one. -/
theorem insertSorted_length (le : Video → Video → Bool) (v : Video)
    (l : List Video) : (insertSorted le v l).length = l.length + 1 := by
  induction l with
  | nil => rfl
  | cons w ws ih =>
    unfold insertSorted
    split
    · rfl
    · simp [ih]

/-- Sorting preserves length, so `total` counts all matching rows. -/
theorem sortVideos_length (le : Video → Video → Bool) (l : List Video) :
    (sortVideos le l).length = l.length := by
  induction l with
  | nil => rfl
  | cons v vs ih =>
    show (insertSorted le v (sortVideos le vs)).length = vs.length + 1
    rw [insertSorted_length, ih]

/-- Evaluating `get_videos` at the filter `g` repositioned to offset `o`:
the sorted result set depends only on the filter/sort dimensions, never on
offset or limit, so the page is a `drop`/`take` slice of the one fixed
list. -/
theorem get_videos_page (c : Catalog) (g : FilterOptions) (o : Nat)
    (hlim : g.limit = PAGE_SIZE) :
    get_videos c { g with offset := o }
      = { videos := ((sortedMatching c g).drop o).take PAGE_SIZE
          total := (sortedMatching c g).length
          has_more := decide
            (o + (((sortedMatching c g).drop o).take PAGE_SIZE).length
              < (sortedMatching c g).length) } := by
  show ({ videos := ((sortedMatching c g).drop o).take g.limit
          total := (sortedMatching c g).length
          has_more := decide
            (o + (((sortedMatching c g).drop o).take g.limit).length
              < (sortedMatching c g).length) } : PaginatedVideos) = _
  rw [hlim]

/-- Running `loadMoreVideos` when a further page exists and no load is in
progress: the offset advances by `PAGE_SIZE`, the returned page is
appended, and exactly one query is issued. -/
theorem loadMoreVideos_run (c : Catalog) (s : AppStoreState)
    (h1 : s.hasMore = true) (h2 : s.isLoading = false) :
    loadMoreVideos c s
      = ({ s with
            videos := s.videos ++ (get_videos c
              { s.filter with offset := s.filter.offset + PAGE_SIZE }).videos
            hasMore := (get_videos c
              { s.filter with offset := s.filter.offset + PAGE_SIZE }).has_more
            filter := { s.filter with offset := s.filter.offset + PAGE_SIZE }
            isLoading := false },
          [{ s.filter with offset := s.filter.offset + PAGE_SIZE }]) := by
  unfold loadMoreVideos
  rw [h1, h2]
  rfl

/-- `loadVideos` establishes the paging invariant at offset 0 for the
stored filter. -/
theorem loadVideos_inv (c : Catalog) (s0 : AppStoreState) :
    PagedInv c { s0.filter with offset := 0, limit := PAGE_SIZE } 0
      (loadVideos c s0) := by
  have hpage := get_videos_page c
    { s0.filter with offset := 0, limit := PAGE_SIZE } 0 rfl
  refine ⟨rfl, ?_, ?_, rfl⟩
  · show (get_videos c { ({ s0.filter with offset := 0, limit := PAGE_SIZE } :
        FilterOptions) with offset := 0 }).videos
      = (sortedMatching c
          { s0.filter with offset := 0, limit := PAGE_SIZE }).take
          (0 + PAGE_SIZE)
    rw [hpage]
    simp
  · show (get_videos c { ({ s0.filter with offset := 0, limit := PAGE_SIZE } :
        FilterOptions) with offset := 0 }).has_more = _
    rw [hpage]

/-- One `loadMoreVideos` step advances the paging invariant from offset `o`
to offset `o + PAGE_SIZE`. -/
theorem loadMore_inv (c : Catalog) (g : FilterOptions) (o : Nat)
    (s : AppStoreState) (hlim : g.limit = PAGE_SIZE)
    (hInv : PagedInv c g o s) (hMore : s.hasMore = true) :
    PagedInv c g (o + PAGE_SIZE) (loadMoreVideos c s).1 := by
  obtain ⟨hf, hv, hm, hl⟩ := hInv
  rw [loadMoreVideos_run c s hMore hl]
  have hf' : { s.filter with offset := s.filter.offset + PAGE_SIZE }
      = { g with offset := o + PAGE_SIZE } := by
    rw [hf]
  have hpage := get_videos_page c g (o + PAGE_SIZE) hlim
  refine ⟨?_, ?_, ?_, rfl⟩
  · exact hf'
  · show s.videos ++ (get_videos c
        { s.filter with offset := s.filter.offset + PAGE_SIZE }).videos = _
    rw [hf', hpage, hv]
    exact (List.take_add (sortedMatching c g) (o + PAGE_SIZE) PAGE_SIZE).symm
  · show (get_videos c
        { s.filter with offset := s.filter.offset + PAGE_SIZE }).has_more = _
    rw [hf', hpage]

/-- With enough fuel, repeatedly triggering `loadMoreVideos` from any state
satisfying the paging invariant ends with the accumulated list equal to the
full unpaginated sorted result. -/
theorem loadMoreRepeat_complete (c : Catalog) (g : FilterOptions)
    (hlim : g.limit = PAGE_SIZE) :
    ∀ (fuel o : Nat) (s : AppStoreState), PagedInv c g o s →
      (sortedMatching c g).length ≤ o + fuel →
      (loadMoreRepeat c fuel s).videos = sortedMatching c g := by
  intro fuel
  induction fuel with
  | zero =>
    intro o s hInv hle
    obtain ⟨hf, hv, hm, hl⟩ := hInv
    show s.videos = sortedMatching c g
    rw [hv]
    refine List.take_of_length_le ?_
    have h100 : 0 < PAGE_SIZE := by norm_num [PAGE_SIZE]
    omega
  | succ fuel ih =>
    intro o s hInv hle
    obtain ⟨hf, hv, hm, hl⟩ := hInv
    rw [loadMoreRepeat]
    by_cases hM : s.hasMore = true
    · rw [if_pos hM]
      refine ih (o + PAGE_SIZE) _
        (loadMore_inv c g o s hlim ⟨hf, hv, hm, hl⟩ hM) ?_
      have h100 : 0 < PAGE_SIZE := by norm_num [PAGE_SIZE]
      omega
    · rw [if_neg hM]
      have hM' : s.hasMore = false := by
        cases hsm : s.hasMore
        · rfl
        · exact absurd hsm hM
      have hnot := of_decide_eq_false (hm.symm.trans hM')
      have htk : (((sortedMatching c g).drop o).take PAGE_SIZE).length
          ≤ PAGE_SIZE := by
        rw [List.length_take]
        exact Nat.min_le_left _ _
      rw [hv]
      exact List.take_of_length_le (by omega)

/-- C1: for a fixed filter and unchanged catalog, the store's paging —
`loadVideos` at offset 0 with limit `PAGE_SIZE`, then repeated
`loadMoreVideos` calls each advancing the offset by `PAGE_SIZE` and
appending the returned page — reproduces the full unpaginated sorted result
exactly (each matching video exactly once, in order); for every request,
`total` is the count of all matching rows before pagination and
`has_more = (offset + returned_count) < total`. -/
theorem pagination_stability (c : Catalog) (s0 : AppStoreState) :
    (loadMoreRepeat c
        (sortedMatching c
          { s0.filter with offset := 0, limit := PAGE_SIZE }).length
        (loadVideos c s0)).videos
      = sortedMatching c { s0.filter with offset := 0, limit := PAGE_SIZE }
    ∧ (loadVideos c s0).filter
        = { s0.filter with offset := 0, limit := PAGE_SIZE }
    ∧ (∀ f : FilterOptions,
        (get_videos c f).total = (c.videos.filter (matchesFilter c f)).length
        ∧ (get_videos c f).has_more
          = decide (f.offset + (get_videos c f).videos.length
              < (get_videos c f).total)) := by
  refine ⟨?_, rfl, ?_⟩
  · exact loadMoreRepeat_complete c
      { s0.filter with offset := 0, limit := PAGE_SIZE } rfl _ 0
      (loadVideos c s0) (loadVideos_inv c s0) (by omega)
  · intro f
    refine ⟨?_, rfl⟩
    show (sortedMatching c f).length = _
    unfold sortedMatching
    exact sortVideos_length _ _

end VideoPlayer
